import Mathlib

/-!
Verification development for the calibre annotations plugin
(`common_utils.py` and `readers/ReadWiserApp.py`).

The field-content model: a destination field (Comments or a custom
column) holds HTML that we embed as a list of top-level nodes.  A node
is either the annotation container (the `div` with class
`user_annotations`, carrying its rendered content as an opaque string),
the comments divider (the `div` with class `comments_divider`), or any
other user-authored markup (opaque string).  `BeautifulSoup(...).find`
followed by `.extract()` becomes removal of the first matching node;
re-serialisation (`unicode(soup)`) is the identity on the node list.
Timestamps are modelled as naturals: only their order matters.
-/

deriving instance DecidableEq for Except

namespace CalibreAnnot

/-- One top-level node of a destination field's HTML. -/
inductive Node where
  | container (content : String)
  | divider
  | other (s : String)
deriving DecidableEq, Repr

/-- True exactly on user-authored markup (neither the annotation
container nor the comments divider). -/
def isUserMarkup : Node → Bool
  | Node.other _ => true
  | _ => false

/-- `soup.find('div', 'user_annotations')` + `.extract()`: locate the
first container node; return its content together with the remaining
nodes in their original order.  `none` when no container is present. -/
def extractContainer : List Node → Option (String × List Node)
  | [] => none
  | Node.container s :: rest => some (s, rest)
  | Node.divider :: rest =>
    match extractContainer rest with
    | some (s, r) => some (s, Node.divider :: r)
    | none => none
  | Node.other t :: rest =>
    match extractContainer rest with
    | some (s, r) => some (s, Node.other t :: r)
    | none => none

/-- `soup.find('div', 'comments_divider')` + `.extract()` guarded by
`if cd:`: remove the first divider node when present, otherwise leave
the list unchanged. -/
def eraseDivider : List Node → List Node
  | [] => []
  | Node.divider :: rest => rest
  | n :: rest => n :: eraseDivider rest

/-- The progress bar of `common_utils.py` (class `ProgressBar`),
restricted to the state the batch operation mutates: the Qt range
maximum and the current value.  The label is presentation only and
is elided. -/
structure ProgressBar where
  maximum : Nat
  value : Nat
deriving DecidableEq, Repr

/-- `ProgressBar.increment`: `setValue(value() + 1)`. -/
def ProgressBar.increment (pb : ProgressBar) : ProgressBar :=
  ⟨pb.maximum, pb.value + 1⟩

/-- Book metadata (`mi`) as `move_annotations` sees it: the Comments
field and the custom columns.  A field value of `none` models a Python
`None` (Comments unset, or `'#value#'` of a custom column being
`None`); `some nodes` models a string field.  Custom columns are an
association list: the newest binding for a name wins, mirroring
`set_user_metadata`. -/
structure Metadata where
  comments : Option (List Node)
  custom : List (String × Option (List Node))
deriving DecidableEq, Repr

/-- Lookup of a custom column value (newest binding first). -/
def fieldLookup : List (String × Option (List Node)) → String → Option (List Node)
  | [], _ => none
  | (k, v) :: rest, f => if f = k then v else fieldLookup rest f

/-- `mi.get_user_metadata(field, False)['#value#']`; a missing column
reads as `None`. -/
def getCustom (mi : Metadata) (field : String) : Option (List Node) :=
  fieldLookup mi.custom field

/-- `mi.set_user_metadata(field, um)` with `um['#value#']` updated. -/
def setCustom (mi : Metadata) (field : String) (v : Option (List Node)) : Metadata :=
  ⟨mi.comments, (field, v) :: mi.custom⟩

/-- `field.startswith('#')`: the field is a custom column.  (Stated on
the character list of the name so that it evaluates by reduction.) -/
def isCustomField (f : String) : Bool :=
  match f.data with
  | [] => false
  | c :: _ => c = '#'

/-- A destination field name is either the Comments field or a custom
column. -/
def validDest (f : String) : Bool := (f == "Comments") || isCustomField f

/-- The content of the source (old destination) field of a book. -/
def sourceContent (oldF : String) (mi : Metadata) : Option (List Node) :=
  if oldF = "Comments" then mi.comments else getCustom mi oldF

/-- Whether the source field of a book holds an annotation container
(`find('div', 'user_annotations')` succeeds on its content). -/
def sourceHasUAS (oldF : String) (mi : Metadata) : Bool :=
  match sourceContent oldF mi with
  | some c => (extractContainer c).isSome
  | none => false

/-- The body of the `for cid in annotation_map` loop of
`move_annotations` (lines 795-956 of `common_utils.py`) for one book,
up to the `db.set_metadata` call: `some mi'` when the book is modified
(and `mi'` is written back), `none` when the book is skipped.
`rr` is `capture_content` followed by `rerender_to_html` (the
annotations-database re-render, an external collaborator here): it maps
the extracted container content to the freshly rendered container
content.  The four `elif` branches appear in source order; note that
the `old == new` comparison is tested only after the two-custom-fields
branch, exactly as in the source.  A custom column whose `'#value#'`
is `None` yields no container and the book is skipped. -/
def processBook (rr : String → String) (oldF newF : String) (mi : Metadata) :
    Option Metadata :=
  if oldF = "Comments" ∧ isCustomField newF = true then
    -- Comments -> custom
    match mi.comments with
    | none => none
    | some content =>
      match extractContainer content with
      | none => none
      | some (uas, residual) =>
        let residual2 := eraseDivider residual
        let newSoup := Node.container (rr uas)
        some (setCustom ⟨some residual2, mi.custom⟩ newF (some [newSoup]))
  else if isCustomField oldF = true ∧ newF = "Comments" then
    -- custom -> Comments
    match getCustom mi oldF with
    | none => none
    | some content =>
      match extractContainer content with
      | none => none
      | some (uas, residual) =>
        let newSoup := Node.container (rr uas)
        let mi1 := setCustom mi oldF (some residual)
        match mi1.comments with
        | none => some ⟨some [newSoup], mi1.custom⟩
        | some c0 => some ⟨some (c0 ++ [Node.divider, newSoup]), mi1.custom⟩
  else if isCustomField oldF = true ∧ isCustomField newF = true then
    -- custom -> custom
    match getCustom mi oldF with
    | none => none
    | some content =>
      match extractContainer content with
      | none => none
      | some (uas, residual) =>
        let newSoup := Node.container (rr uas)
        let mi1 := setCustom mi oldF (some residual)
        some (setCustom mi1 newF (some [newSoup]))
  else if oldF = newF then
    if newF = "Comments" then
      -- same field -> same field, Comments
      match mi.comments with
      | none => none
      | some content =>
        match extractContainer content with
        | none => none
        | some (uas, residual) =>
          let residual2 := eraseDivider residual
          let newSoup := Node.container (rr uas)
          -- `mi.comments` was just assigned the residual string, which
          -- is never `None`, so the divider is always inserted here.
          some ⟨some (residual2 ++ [Node.divider, newSoup]), mi.custom⟩
    else
      -- same field -> same field, custom (reachable only for a field
      -- name that is neither Comments nor `#...`, since two custom
      -- fields are caught by the previous branch)
      match getCustom mi oldF with
      | none => none
      | some content =>
        match extractContainer content with
        | none => none
        | some (uas, residual) =>
          let newSoup := Node.container (rr uas)
          some (setCustom mi newF (some (residual ++ [newSoup])))
  else none

/-- The books actually written by the batch, with their new metadata
(in batch order). -/
def processedList (rr : String → String) (oldF newF : String) :
    List (Nat × Metadata) → List (Nat × Metadata)
  | [] => []
  | (cid, mi) :: rest =>
    match processBook rr oldF newF mi with
    | some mi' => (cid, mi') :: processedList rr oldF newF rest
    | none => processedList rr oldF newF rest

/-- Number of books of the batch that the per-book step modifies. -/
def countModified (rr : String → String) (oldF newF : String)
    (batch : List (Nat × Metadata)) : Nat :=
  (batch.filter (fun b => (processBook rr oldF newF b.2).isSome)).length

/-- Number of books of the batch whose source field holds an
annotation container. -/
def countWithContainer (oldF : String) (batch : List (Nat × Metadata)) : Nat :=
  (batch.filter (fun b => sourceHasUAS oldF b.2)).length

/-- The batch loop of `move_annotations`.  `setOk cid` tells whether
the library's `db.set_metadata` call for book `cid` succeeds; a failing
write raises, which aborts the loop (there is no `try`/`except` in the
source), so the error result carries exactly the books already written.
On success the written books and the progress bar are returned; the
bar is incremented once per written book, after the write, as in the
source. -/
def runBatch (rr : String → String) (setOk : Nat → Bool) (oldF newF : String) :
    List (Nat × Metadata) → List (Nat × Metadata) → ProgressBar →
    Except (List (Nat × Metadata)) (List (Nat × Metadata) × ProgressBar)
  | [], written, pb => Except.ok (written, pb)
  | (cid, mi) :: rest, written, pb =>
    match processBook rr oldF newF mi with
    | none => runBatch rr setOk oldF newF rest written pb
    | some mi' =>
      if setOk cid then
        runBatch rr setOk oldF newF rest (written ++ [(cid, mi')]) pb.increment
      else
        Except.error written

/-- `move_annotations` (lines 768-991 of `common_utils.py`): set up the
progress bar (`set_maximum(total_books)`, `set_value(1)`), run the
batch, and report.  The summary message contains a single book count,
`len(annotation_map)`; the ok result carries (written books, final
progress bar, that reported count). -/
def move_annotations (rr : String → String) (setOk : Nat → Bool)
    (oldF newF : String) (batch : List (Nat × Metadata)) :
    Except (List (Nat × Metadata)) (List (Nat × Metadata) × ProgressBar × Nat) :=
  match runBatch rr setOk oldF newF batch [] ⟨batch.length, 1⟩ with
  | Except.error written => Except.error written
  | Except.ok (written, pbF) => Except.ok (written, pbF, batch.length)

/-! Concrete sample data used by witnesses and counterexamples. -/

/-- A Comments field with user text followed by an annotation container. -/
def miWith : Metadata := ⟨some [Node.other "user text", Node.container "old highlights"], []⟩

/-- A Comments field holding only an annotation container. -/
def miHl2 : Metadata := ⟨some [Node.container "hl2"], []⟩

/-- A Comments field with user text and no annotation container. -/
def miWithout : Metadata := ⟨some [Node.other "just user text"], []⟩

/-- A batch of three books of which only the first two have an
annotation container in the Comments field. -/
def batch3 : List (Nat × Metadata) := [(1, miWith), (2, miHl2), (3, miWithout)]

/-- C1 counterexample: migrating Comments to a custom column for
`batch3` (3 books, 2 with containers) modifies 2 books (the progress
bar ends at 1 + 2 and only two books are written), yet the single
count in the final summary message is 3, the full batch size, which
the message presents as the number of books moved.  The code keeps no
modified or skipped count and the report does not distinguish
processed from modified, contradicting the claim's
processed=3 / modified=2 / skipped=1 report. -/
theorem c1_report_counterexample :
    move_annotations (fun s => s) (fun _ => true) "Comments" "#annot" batch3 =
      Except.ok ([(1, ⟨some [Node.other "user text"],
                      [("#annot", some [Node.container "old highlights"])]⟩),
                  (2, ⟨some [], [("#annot", some [Node.container "hl2"])]⟩)],
                 ⟨3, 3⟩, 3)
    ∧ countWithContainer "Comments" batch3 = 2 ∧ (3 : Nat) ≠ 2 := by
  refine ⟨by decide, by decide, by decide⟩

/-- C1 amended: `move_annotations` reports a single book count in its
final summary message, and that count is always `len(annotation_map)`,
the total batch size, regardless of how many books were skipped for
lack of an annotation container; only the progress bar reflects
per-book modification. -/
theorem c1_report_is_batch_size (rr : String → String) (setOk : Nat → Bool)
    (oldF newF : String) (batch : List (Nat × Metadata))
    (res : List (Nat × Metadata) × ProgressBar × Nat)
    (h : move_annotations rr setOk oldF newF batch = Except.ok res) :
    res.2.2 = batch.length := by
  unfold move_annotations at h
  split at h
  · exact absurd h (by simp)
  · simp only [Except.ok.injEq] at h
    subst h
    rfl

/-- Witness for `c1_report_is_batch_size` on `batch3`. -/
theorem c1_report_witness :
    move_annotations (fun s => s) (fun _ => true) "Comments" "#annot" batch3 =
      Except.ok ([(1, ⟨some [Node.other "user text"],
                      [("#annot", some [Node.container "old highlights"])]⟩),
                  (2, ⟨some [], [("#annot", some [Node.container "hl2"])]⟩)],
                 ⟨3, 3⟩, 3)
    ∧ (3 : Nat) = batch3.length := by
  refine ⟨by decide, ?_⟩
  exact c1_report_is_batch_size (fun s => s) (fun _ => true) "Comments" "#annot" batch3
    ([(1, ⟨some [Node.other "user text"],
           [("#annot", some [Node.container "old highlights"])]⟩),
      (2, ⟨some [], [("#annot", some [Node.container "hl2"])]⟩)], ⟨3, 3⟩, 3)
    (by decide)

/-- A custom column name is never the Comments field. -/
theorem custom_ne_comments {f : String} (h : isCustomField f = true) :
    ¬ f = "Comments" := by
  intro hf
  subst hf
  exact absurd h (by decide)

/-- A prefix of the batch all of whose writes succeed is consumed by
`runBatch` by appending its processed books and advancing the bar once
per modified book. -/
theorem runBatch_pre (rr : String → String) (setOk : Nat → Bool)
    (oldF newF : String) (pre : List (Nat × Metadata)) :
    ∀ (rest written : List (Nat × Metadata)) (pb : ProgressBar),
      (∀ p ∈ pre, setOk p.1 = true) →
      runBatch rr setOk oldF newF (pre ++ rest) written pb =
        runBatch rr setOk oldF newF rest
          (written ++ processedList rr oldF newF pre)
          ⟨pb.maximum, pb.value + countModified rr oldF newF pre⟩ := by
  induction pre with
  | nil =>
    intro rest written pb _
    simp [processedList, countModified]
  | cons b pre' ih =>
    intro rest written pb h
    obtain ⟨cid, mi⟩ := b
    have htail := fun p hp' => h p (List.mem_cons_of_mem _ hp')
    simp only [List.cons_append, runBatch, List.append_eq]
    cases hp : processBook rr oldF newF mi with
    | none =>
      dsimp only
      rw [ih rest written pb htail]
      simp [processedList, countModified, hp]
    | some mi' =>
      have hcid : setOk cid = true := h (cid, mi) (List.mem_cons_self _ _)
      dsimp only
      rw [if_pos hcid]
      rw [ih rest (written ++ [(cid, mi')]) pb.increment htail]
      simp only [processedList, countModified, hp, ProgressBar.increment,
        List.filter_cons, Option.isSome_some, if_true, List.append_assoc,
        List.cons_append, List.nil_append, List.length_cons]
      have harith : pb.value + 1 +
          (List.filter (fun b => (processBook rr oldF newF b.2).isSome) pre').length =
          pb.value +
          ((List.filter (fun b => (processBook rr oldF newF b.2).isSome) pre').length + 1) := by
        omega
      rw [harith]

/-- With every library write succeeding, the batch loop writes exactly
the processed books and increments the bar once per modified book. -/
theorem runBatch_allOk (rr : String → String) (oldF newF : String)
    (l written : List (Nat × Metadata)) (pb : ProgressBar) :
    runBatch rr (fun _ => true) oldF newF l written pb =
      Except.ok (written ++ processedList rr oldF newF l,
                 ⟨pb.maximum, pb.value + countModified rr oldF newF l⟩) := by
  have h := runBatch_pre rr (fun _ => true) oldF newF l [] written pb
    (fun _ _ => rfl)
  rw [List.append_nil] at h
  rw [h]
  rfl

/-- C5 counterexample: with the very first library write failing, the
batch of `batch3` aborts immediately: the error result records no
written book at all, although the second book of the batch also holds
a container and would have been modified.  No per-book failure is
recorded and no later book is processed, contradicting the claim that
the operation continues with the remaining books. -/
theorem c5_abort_counterexample :
    move_annotations (fun s => s) (fun _ => false) "Comments" "#annot" batch3 =
      Except.error []
    ∧ (processBook (fun s => s) "Comments" "#annot" miHl2).isSome = true := by
  exact ⟨by decide, by decide⟩

/-- C5 amended: `db.set_metadata` is not wrapped in any handler inside
`move_annotations`, so a failing write for one book raises and aborts
the whole batch at that book: the books before it stay written, while
the failing book and every book after it are not processed, and no
per-book failure record is produced. -/
theorem c5_write_failure_aborts (rr : String → String) (setOk : Nat → Bool)
    (oldF newF : String) (pre post : List (Nat × Metadata))
    (cid : Nat) (mi mi' : Metadata)
    (hpre : ∀ p ∈ pre, setOk p.1 = true)
    (hmod : processBook rr oldF newF mi = some mi')
    (hfail : setOk cid = false) :
    move_annotations rr setOk oldF newF (pre ++ (cid, mi) :: post) =
      Except.error (processedList rr oldF newF pre) := by
  unfold move_annotations
  rw [runBatch_pre rr setOk oldF newF pre ((cid, mi) :: post) []
    ⟨(pre ++ (cid, mi) :: post).length, 1⟩ hpre]
  simp only [runBatch, hmod, hfail, List.nil_append]
  rfl

/-- Witness for `c5_write_failure_aborts`: the write for book 2 fails;
book 1 is written, book 3 is never processed. -/
theorem c5_abort_witness :
    move_annotations (fun s => s) (fun cid => cid == 1) "Comments" "#annot"
        ([(1, miWith)] ++ (2, miHl2) :: [(3, miWithout)]) =
      Except.error (processedList (fun s => s) "Comments" "#annot" [(1, miWith)]) := by
  exact c5_write_failure_aborts (fun s => s) (fun cid => cid == 1) "Comments" "#annot"
    [(1, miWith)] [(3, miWithout)] 2 miHl2
    ⟨some [], [("#annot", some [Node.container "hl2"])]⟩
    (by decide) (by decide) (by decide)

/-- For valid destination field names (Comments or a custom column),
the per-book step modifies the book exactly when its source field
holds an annotation container. -/
theorem processBook_isSome_eq (rr : String → String) {oldF newF : String}
    (mi : Metadata) (hOld : validDest oldF = true) (hNew : validDest newF = true) :
    (processBook rr oldF newF mi).isSome = sourceHasUAS oldF mi := by
  have hOld' : oldF = "Comments" ∨ isCustomField oldF = true := by
    simpa [validDest, Bool.or_eq_true, beq_iff_eq] using hOld
  have hNew' : newF = "Comments" ∨ isCustomField newF = true := by
    simpa [validDest, Bool.or_eq_true, beq_iff_eq] using hNew
  rcases hOld' with hO | hO <;> rcases hNew' with hN | hN
  · -- Comments -> Comments (the same-field Comments branch)
    subst hO; subst hN
    unfold processBook sourceHasUAS sourceContent
    rw [if_neg (by decide), if_neg (by decide), if_neg (by decide),
      if_pos rfl, if_pos rfl, if_pos rfl]
    cases hc : mi.comments with
    | none => rfl
    | some c =>
      dsimp only
      cases he : extractContainer c with
      | none => rfl
      | some p => obtain ⟨u, r⟩ := p; rfl
  · -- Comments -> custom
    subst hO
    unfold processBook sourceHasUAS sourceContent
    rw [if_pos ⟨rfl, hN⟩, if_pos rfl]
    cases hc : mi.comments with
    | none => rfl
    | some c =>
      dsimp only
      cases he : extractContainer c with
      | none => rfl
      | some p => obtain ⟨u, r⟩ := p; rfl
  · -- custom -> Comments
    subst hN
    unfold processBook sourceHasUAS sourceContent
    rw [if_neg (fun hand => custom_ne_comments hO hand.1),
      if_pos ⟨hO, rfl⟩, if_neg (custom_ne_comments hO)]
    cases hg : getCustom mi oldF with
    | none => rfl
    | some c =>
      dsimp only
      cases he : extractContainer c with
      | none => rfl
      | some p =>
        obtain ⟨u, r⟩ := p
        dsimp only [setCustom]
        cases mi.comments <;> rfl
  · -- custom -> custom
    unfold processBook sourceHasUAS sourceContent
    rw [if_neg (fun hand => custom_ne_comments hO hand.1),
      if_neg (fun hand => custom_ne_comments hN hand.2),
      if_pos ⟨hO, hN⟩, if_neg (custom_ne_comments hO)]
    cases hg : getCustom mi oldF with
    | none => rfl
    | some c =>
      dsimp only
      cases he : extractContainer c with
      | none => rfl
      | some p => obtain ⟨u, r⟩ := p; rfl

/-- For valid destination field names, the modified-book count of a
batch is the number of books whose source field holds a container. -/
theorem countModified_eq_withContainer (rr : String → String) {oldF newF : String}
    (batch : List (Nat × Metadata))
    (hOld : validDest oldF = true) (hNew : validDest newF = true) :
    countModified rr oldF newF batch = countWithContainer oldF batch := by
  unfold countModified countWithContainer
  induction batch with
  | nil => rfl
  | cons b rest ih =>
    simp only [List.filter_cons, processBook_isSome_eq rr b.2 hOld hNew]
    cases sourceHasUAS oldF b.2 <;> simp [ih]

/-- C7: with every write succeeding and valid field names, the batch
run of `move_annotations` ends with the progress bar incremented
exactly once per book whose source field held an annotation container
(the bar starts at 1, so it ends at 1 + that count), writes exactly
those books, and reports the batch length. -/
theorem c7_increment_per_modified (rr : String → String) (oldF newF : String)
    (batch : List (Nat × Metadata))
    (hOld : validDest oldF = true) (hNew : validDest newF = true) :
    move_annotations rr (fun _ => true) oldF newF batch =
      Except.ok (processedList rr oldF newF batch,
                 ⟨batch.length, 1 + countWithContainer oldF batch⟩,
                 batch.length) := by
  unfold move_annotations
  rw [runBatch_allOk]
  rw [countModified_eq_withContainer rr batch hOld hNew]
  rfl

/-- Witness for `c7_increment_per_modified` on `batch3`: two of the
three books hold containers, so the bar ends at 3 = 1 + 2. -/
theorem c7_increment_witness :
    move_annotations (fun s => s) (fun _ => true) "Comments" "#annot" batch3 =
      Except.ok (processedList (fun s => s) "Comments" "#annot" batch3,
                 ⟨batch3.length, 1 + countWithContainer "Comments" batch3⟩,
                 batch3.length) := by
  exact c7_increment_per_modified (fun s => s) "Comments" "#annot" batch3
    (by decide) (by decide)

/-- Extracting the container removes exactly one node: the rest is a
sublist of the original field content, in the original order, and all
user-authored markup is untouched. -/
theorem extractContainer_spec :
    ∀ {c : List Node} {u : String} {r : List Node},
      extractContainer c = some (u, r) →
      r.Sublist c ∧ r.filter isUserMarkup = c.filter isUserMarkup := by
  intro c
  induction c with
  | nil => intro u r h; exact absurd h (by simp [extractContainer])
  | cons n rest ih =>
    intro u r h
    cases n with
    | container s =>
      simp only [extractContainer, Option.some.injEq, Prod.mk.injEq] at h
      obtain ⟨hu, hr⟩ := h
      subst hr
      exact ⟨List.sublist_cons_self _ _, by simp [List.filter_cons, isUserMarkup]⟩
    | divider =>
      rw [extractContainer] at h
      cases he : extractContainer rest with
      | none => rw [he] at h; exact absurd h (by simp)
      | some p =>
        obtain ⟨u', r'⟩ := p
        rw [he] at h
        simp only [Option.some.injEq, Prod.mk.injEq] at h
        obtain ⟨hu, hr⟩ := h
        subst hr
        obtain ⟨hs, hf⟩ := ih he
        exact ⟨List.Sublist.cons₂ _ hs, by simp [List.filter_cons, isUserMarkup, hf]⟩
    | other t =>
      rw [extractContainer] at h
      cases he : extractContainer rest with
      | none => rw [he] at h; exact absurd h (by simp)
      | some p =>
        obtain ⟨u', r'⟩ := p
        rw [he] at h
        simp only [Option.some.injEq, Prod.mk.injEq] at h
        obtain ⟨hu, hr⟩ := h
        subst hr
        obtain ⟨hs, hf⟩ := ih he
        exact ⟨List.Sublist.cons₂ _ hs, by simp [List.filter_cons, isUserMarkup, hf]⟩

/-- Removing the (first) divider keeps the remaining nodes in order
and does not touch user-authored markup. -/
theorem eraseDivider_spec (l : List Node) :
    (eraseDivider l).Sublist l ∧
      (eraseDivider l).filter isUserMarkup = l.filter isUserMarkup := by
  induction l with
  | nil => exact ⟨List.Sublist.refl _, rfl⟩
  | cons n rest ih =>
    cases n with
    | container s =>
      exact ⟨List.Sublist.cons₂ _ ih.1, by simp [eraseDivider, List.filter_cons,
        isUserMarkup, ih.2]⟩
    | divider =>
      exact ⟨List.sublist_cons_self _ _, by simp [eraseDivider, List.filter_cons,
        isUserMarkup]⟩
    | other t =>
      exact ⟨List.Sublist.cons₂ _ ih.1, by simp [eraseDivider, List.filter_cons,
        isUserMarkup, ih.2]⟩

/-- C2: when a migration between two distinct fields modifies a book,
the content written back to the source field is exactly the original
content with the annotation container removed — and, when the source
is Comments, the comments divider removed with it; what remains is a
sub-sequence of the original nodes and every piece of user-authored
markup survives unchanged, in its original order. -/
theorem c2_source_residual_preserved (rr : String → String)
    {oldF newF : String} {mi mi' : Metadata} {c : List Node}
    {u : String} {r : List Node}
    (hne : ¬ oldF = newF)
    (hOld : validDest oldF = true) (hNew : validDest newF = true)
    (hsc : sourceContent oldF mi = some c)
    (he : extractContainer c = some (u, r))
    (hpb : processBook rr oldF newF mi = some mi') :
    sourceContent oldF mi' =
      some (if oldF = "Comments" then eraseDivider r else r)
    ∧ (if oldF = "Comments" then eraseDivider r else r).Sublist c
    ∧ (if oldF = "Comments" then eraseDivider r else r).filter isUserMarkup =
        c.filter isUserMarkup := by
  have hOld' : oldF = "Comments" ∨ isCustomField oldF = true := by
    simpa [validDest, Bool.or_eq_true, beq_iff_eq] using hOld
  have hNew' : newF = "Comments" ∨ isCustomField newF = true := by
    simpa [validDest, Bool.or_eq_true, beq_iff_eq] using hNew
  rcases hOld' with hO | hO <;> rcases hNew' with hN | hN
  · exact absurd (hO.trans hN.symm) hne
  · -- Comments -> custom
    subst hO
    unfold sourceContent at hsc
    rw [if_pos rfl] at hsc
    unfold processBook at hpb
    rw [if_pos ⟨rfl, hN⟩, hsc] at hpb
    dsimp only at hpb
    rw [he] at hpb
    dsimp only at hpb
    simp only [Option.some.injEq] at hpb
    subst hpb
    refine ⟨?_, ?_, ?_⟩
    · simp [sourceContent, setCustom]
    · rw [if_pos rfl]
      exact (eraseDivider_spec r).1.trans (extractContainer_spec he).1
    · rw [if_pos rfl]
      exact (eraseDivider_spec r).2.trans (extractContainer_spec he).2
  · -- custom -> Comments
    subst hN
    have hnc := custom_ne_comments hO
    unfold sourceContent at hsc
    rw [if_neg hnc] at hsc
    unfold processBook at hpb
    rw [if_neg (fun hand => hnc hand.1), if_pos ⟨hO, rfl⟩, hsc] at hpb
    dsimp only at hpb
    rw [he] at hpb
    dsimp only [setCustom] at hpb
    cases hcm : mi.comments with
    | none =>
      rw [hcm] at hpb
      dsimp only at hpb
      simp only [Option.some.injEq] at hpb
      subst hpb
      refine ⟨?_, ?_, ?_⟩
      · simp [sourceContent, if_neg hnc, getCustom, fieldLookup]
      · rw [if_neg hnc]; exact (extractContainer_spec he).1
      · rw [if_neg hnc]; exact (extractContainer_spec he).2
    | some c0 =>
      rw [hcm] at hpb
      dsimp only at hpb
      simp only [Option.some.injEq] at hpb
      subst hpb
      refine ⟨?_, ?_, ?_⟩
      · simp [sourceContent, if_neg hnc, getCustom, fieldLookup]
      · rw [if_neg hnc]; exact (extractContainer_spec he).1
      · rw [if_neg hnc]; exact (extractContainer_spec he).2
  · -- custom -> custom
    have hnc := custom_ne_comments hO
    unfold sourceContent at hsc
    rw [if_neg hnc] at hsc
    unfold processBook at hpb
    rw [if_neg (fun hand => hnc hand.1),
      if_neg (fun hand => custom_ne_comments hN hand.2),
      if_pos ⟨hO, hN⟩, hsc] at hpb
    dsimp only at hpb
    rw [he] at hpb
    dsimp only [setCustom] at hpb
    simp only [Option.some.injEq] at hpb
    subst hpb
    refine ⟨?_, ?_, ?_⟩
    · simp only [sourceContent, if_neg hnc, getCustom, fieldLookup]
      rw [if_neg hne]
      simp
    · rw [if_neg hnc]; exact (extractContainer_spec he).1
    · rw [if_neg hnc]; exact (extractContainer_spec he).2

/-- A Comments field holding user text, the divider, a container and
further user text, for the C2 witness. -/
def c2c : List Node :=
  [Node.other "keep1", Node.divider, Node.container "A", Node.other "keep2"]

/-- `c2c` with the container extracted. -/
def c2r : List Node := [Node.other "keep1", Node.divider, Node.other "keep2"]

/-- The book whose Comments field holds `c2c`. -/
def c2mi : Metadata := ⟨some c2c, []⟩

/-- `c2mi` after migrating Comments to the custom column. -/
def c2mi' : Metadata :=
  ⟨some [Node.other "keep1", Node.other "keep2"],
   [("#annot", some [Node.container "A"])]⟩

/-- Witness for `c2_source_residual_preserved`: migrating `c2mi` from
Comments to a custom column strips exactly the container and the
divider from Comments, keeping the user markup in order. -/
theorem c2_source_residual_witness :
    sourceContent "Comments" c2mi' =
      some (if "Comments" = "Comments" then eraseDivider c2r else c2r)
    ∧ (if "Comments" = "Comments" then eraseDivider c2r else c2r).Sublist c2c
    ∧ (if "Comments" = "Comments" then eraseDivider c2r else c2r).filter isUserMarkup =
        c2c.filter isUserMarkup :=
  @c2_source_residual_preserved (fun s => s) "Comments" "#annot" c2mi c2mi' c2c "A" c2r
    (by decide) (by decide) (by decide) (by decide) (by decide) (by decide)

/-- C3 counterexample: the destination Comments field holds the empty
string (`some []`, which is not Python `None`), so its residual
non-annotation content is empty; yet migrating a custom column with
container `A` into it inserts the divider before the container,
because the code tests `mi.comments is None` rather than whether any
non-annotation text is present.  The claim's expected result, the
container with no divider, is not produced. -/
theorem c3_divider_counterexample :
    processBook (fun s => s) "#old" "Comments"
        ⟨some [], [("#old", some [Node.container "A"])]⟩ =
      some ⟨some [Node.divider, Node.container "A"],
            [("#old", some []), ("#old", some [Node.container "A"])]⟩
    ∧ [Node.divider, Node.container "A"] ≠ [Node.container "A"] := by
  exact ⟨by decide, by decide⟩

/-- C3 amended: when annotation content is written into the Comments
destination, the divider is omitted only when Comments is Python
`None` (unset); whenever Comments holds a string — even the empty
string, or text that is itself only annotation markup — the divider is
inserted between that string and the new container.  In the
same-field Comments re-render the divider is always inserted, since
Comments has just been assigned the residual string (never `None`). -/
theorem c3_divider_on_string_comments (rr : String → String) :
    (∀ (oldF : String) (mi : Metadata) (c : List Node) (u : String) (r : List Node),
      isCustomField oldF = true →
      getCustom mi oldF = some c →
      extractContainer c = some (u, r) →
      processBook rr oldF "Comments" mi =
        some ⟨some (match mi.comments with
                    | none => [Node.container (rr u)]
                    | some c0 => c0 ++ [Node.divider, Node.container (rr u)]),
              (oldF, some r) :: mi.custom⟩)
    ∧ (∀ (mi : Metadata) (c : List Node) (u : String) (r : List Node),
      mi.comments = some c →
      extractContainer c = some (u, r) →
      processBook rr "Comments" "Comments" mi =
        some ⟨some (eraseDivider r ++ [Node.divider, Node.container (rr u)]),
              mi.custom⟩) := by
  constructor
  · intro oldF mi c u r hO hg he
    have hnc := custom_ne_comments hO
    unfold processBook
    rw [if_neg (fun hand => hnc hand.1), if_pos ⟨hO, rfl⟩, hg]
    dsimp only
    rw [he]
    dsimp only [setCustom]
    cases hcm : mi.comments <;> rfl
  · intro mi c u r hcm he
    unfold processBook
    rw [if_neg (by decide), if_neg (by decide), if_neg (by decide),
      if_pos rfl, if_pos rfl, hcm]
    dsimp only
    rw [he]

/-- Witness for `c3_divider_on_string_comments`: Comments holding the
string "note" receives divider + container. -/
theorem c3_divider_witness :
    processBook (fun s => s) "#old" "Comments"
        ⟨some [Node.other "note"], [("#old", some [Node.container "A"])]⟩ =
      some ⟨some ([Node.other "note"] ++ [Node.divider, Node.container "A"]),
            [("#old", some []), ("#old", some [Node.container "A"])]⟩ :=
  (c3_divider_on_string_comments (fun s => s)).1 "#old"
    ⟨some [Node.other "note"], [("#old", some [Node.container "A"])]⟩
    [Node.container "A"] "A" [] (by decide) (by decide) (by decide)

/-- C4: the comments divider is stripped exactly together with the
annotation container.  When parsing the source Comments content finds
no container, the book is skipped and nothing is written, so a divider
that is present stays in place; when a container is found, the
(first) divider is removed with it from the residual.  Stated for the
Comments-to-custom migration branch and the same-field Comments
branch, the two places that strip the divider. -/
theorem c4_divider_iff_container (rr : String → String) :
    (∀ (newF : String) (mi : Metadata) (c : List Node),
      isCustomField newF = true →
      mi.comments = some c →
      extractContainer c = none →
      processBook rr "Comments" newF mi = none)
    ∧ (∀ (newF : String) (mi : Metadata) (c : List Node) (u : String) (r : List Node),
      isCustomField newF = true →
      mi.comments = some c →
      extractContainer c = some (u, r) →
      processBook rr "Comments" newF mi =
        some (setCustom ⟨some (eraseDivider r), mi.custom⟩ newF
          (some [Node.container (rr u)])))
    ∧ (∀ (mi : Metadata) (c : List Node),
      mi.comments = some c →
      extractContainer c = none →
      processBook rr "Comments" "Comments" mi = none) := by
  refine ⟨?_, ?_, ?_⟩
  · intro newF mi c hN hcm he
    unfold processBook
    rw [if_pos ⟨rfl, hN⟩, hcm]
    dsimp only
    rw [he]
  · intro newF mi c u r hN hcm he
    unfold processBook
    rw [if_pos ⟨rfl, hN⟩, hcm]
    dsimp only
    rw [he]
  · intro mi c hcm he
    unfold processBook
    rw [if_neg (by decide), if_neg (by decide), if_neg (by decide),
      if_pos rfl, if_pos rfl, hcm]
    dsimp only
    rw [he]

/-- Witness for `c4_divider_iff_container`: a Comments field holding a
divider but no container is skipped — the divider is not stripped
independently. -/
theorem c4_divider_witness :
    processBook (fun s => s) "Comments" "#annot"
        ⟨some [Node.divider, Node.other "x"], []⟩ = none :=
  (c4_divider_iff_container (fun s => s)).1 "#annot"
    ⟨some [Node.divider, Node.other "x"], []⟩
    [Node.divider, Node.other "x"] (by decide) (by decide) (by decide)

/-- Modelled from the spec: `update_book_last_annotation` (the
annotations-database layer called at line 217 of `ReadWiserApp.py`) is
not under `src/`.  Per the spec, the book's last-annotation timestamp
"is advanced whenever a qualifying annotation is inserted" so that it
"always equals the maximum `last_modification` over all annotations
currently associated with this book": advancing the stored value with
the inserted timestamp is taking their maximum (or the timestamp
itself when no annotation was recorded yet). -/
def updateBookLastAnnTs : Option Nat → Nat → Option Nat
  | none, ts => some ts
  | some t, ts => some (max t ts)

/-- The per-book state built by the highlight loop of
`parse_exported_highlights` (lines 176-217): the timestamps of the
annotations inserted so far for the book, and the book's
last-annotation timestamp (`none` before any insertion). -/
structure BookAnnState where
  inserted : List Nat
  lastTs : Option Nat
deriving DecidableEq, Repr

/-- One turn of the highlight loop: `add_to_annotations_db` followed by
`update_book_last_annotation` with the highlight's timestamp. -/
def insertHighlightTs (st : BookAnnState) (ts : Nat) : BookAnnState :=
  ⟨st.inserted ++ [ts], updateBookLastAnnTs st.lastTs ts⟩

/-- The highlight loop over a list of timestamps, in arrival order. -/
def insertAllTs (st : BookAnnState) : List Nat → BookAnnState
  | [] => st
  | ts :: rest => insertAllTs (insertHighlightTs st ts) rest

/-- `t` is the maximum of `l` (`none` exactly when `l` is empty). -/
def isMaxTs (t : Option Nat) (l : List Nat) : Prop :=
  (t = none ↔ l = []) ∧ ∀ v, t = some v → v ∈ l ∧ ∀ x ∈ l, x ≤ v

/-- One insertion preserves the maximum invariant. -/
theorem insertHighlightTs_isMax {st : BookAnnState} {ts : Nat}
    (h : isMaxTs st.lastTs st.inserted) :
    isMaxTs (insertHighlightTs st ts).lastTs (insertHighlightTs st ts).inserted := by
  obtain ⟨hnone, hsome⟩ := h
  cases hl : st.lastTs with
  | none =>
    have hemp : st.inserted = [] := hnone.mp hl
    constructor
    · simp [insertHighlightTs, updateBookLastAnnTs, hl, hemp]
    · intro v hv
      simp only [insertHighlightTs, updateBookLastAnnTs, hl, hemp,
        List.nil_append, Option.some.injEq] at hv ⊢
      subst hv
      simp
  | some t =>
    obtain ⟨hmem, hbd⟩ := hsome t hl
    constructor
    · simp [insertHighlightTs, updateBookLastAnnTs, hl]
    · intro v hv
      simp only [insertHighlightTs, updateBookLastAnnTs, hl,
        Option.some.injEq] at hv ⊢
      subst hv
      constructor
      · rcases le_total t ts with hle | hle
        · rw [max_eq_right hle]
          exact List.mem_append_right _ (by simp)
        · rw [max_eq_left hle]
          exact List.mem_append_left _ hmem
      · intro x hx
        rcases List.mem_append.mp hx with hx' | hx'
        · exact le_trans (hbd x hx') (le_max_left _ _)
        · simp only [List.mem_singleton] at hx'
          subst hx'
          exact le_max_right _ _

/-- The whole loop preserves the maximum invariant. -/
theorem insertAllTs_isMax (l : List Nat) :
    ∀ st : BookAnnState, isMaxTs st.lastTs st.inserted →
      isMaxTs (insertAllTs st l).lastTs (insertAllTs st l).inserted := by
  induction l with
  | nil => intro st h; exact h
  | cons ts rest ih => intro st h; exact ih _ (insertHighlightTs_isMax h)

/-- The loop records exactly the inserted timestamps, in order. -/
theorem insertAllTs_inserted (l : List Nat) :
    ∀ st : BookAnnState, (insertAllTs st l).inserted = st.inserted ++ l := by
  induction l with
  | nil => intro st; simp [insertAllTs]
  | cons ts rest ih =>
    intro st
    rw [insertAllTs, ih]
    simp [insertHighlightTs]

/-- Two maxima of lists with the same members agree. -/
theorem isMaxTs_unique {t t' : Option Nat} {l l' : List Nat}
    (h : isMaxTs t l) (h' : isMaxTs t' l')
    (hm : ∀ x, x ∈ l ↔ x ∈ l') : t = t' := by
  cases t with
  | none =>
    have hl : l = [] := h.1.mp rfl
    have : l' = [] := by
      cases hl' : l' with
      | nil => rfl
      | cons a as =>
        exact absurd ((hm a).mpr (by rw [hl']; simp)) (by rw [hl]; simp)
    exact (h'.1.mpr this).symm
  | some v =>
    cases t' with
    | none =>
      have hl' : l' = [] := h'.1.mp rfl
      obtain ⟨hv, _⟩ := h.2 v rfl
      exact absurd ((hm v).mp hv) (by rw [hl']; simp)
    | some v' =>
      obtain ⟨hv, hb⟩ := h.2 v rfl
      obtain ⟨hv', hb'⟩ := h'.2 v' rfl
      have h1 : v ≤ v' := hb' v ((hm v).mp hv)
      have h2 : v' ≤ v := hb v' ((hm v').mpr hv')
      rw [le_antisymm h1 h2]

/-- C6: after the highlight loop inserts any list of annotation
timestamps for a book (starting from a fresh book record), the book's
last-annotation timestamp is exactly the maximum `last_modification`
over the annotations now associated with the book; it is monotonically
non-decreasing under each further insertion, and it is the same for
every arrival order of the same annotations. -/
theorem c6_last_ann_is_max (l : List Nat) :
    ((insertAllTs ⟨[], none⟩ l).inserted = l)
    ∧ (∀ v, (insertAllTs ⟨[], none⟩ l).lastTs = some v →
        v ∈ l ∧ ∀ x ∈ l, x ≤ v)
    ∧ ((insertAllTs ⟨[], none⟩ l).lastTs = none ↔ l = [])
    ∧ (∀ ts v, (insertAllTs ⟨[], none⟩ l).lastTs = some v →
        ∃ w, (insertHighlightTs (insertAllTs ⟨[], none⟩ l) ts).lastTs = some w
          ∧ v ≤ w)
    ∧ (∀ l', l.Perm l' →
        (insertAllTs ⟨[], none⟩ l').lastTs = (insertAllTs ⟨[], none⟩ l).lastTs) := by
  have hini : isMaxTs (BookAnnState.mk [] none).lastTs
      (BookAnnState.mk [] none).inserted := by
    constructor
    · simp
    · intro v hv; exact absurd hv (by simp)
  have hmax := insertAllTs_isMax l _ hini
  have hins : (insertAllTs ⟨[], none⟩ l).inserted = l := by
    rw [insertAllTs_inserted]; simp
  rw [hins] at hmax
  refine ⟨hins, hmax.2, hmax.1, ?_, ?_⟩
  · intro ts v hv
    refine ⟨max v ts, ?_, le_max_left _ _⟩
    simp [insertHighlightTs, updateBookLastAnnTs, hv]
  · intro l' hperm
    have hmax' := insertAllTs_isMax l' _ hini
    have hins' : (insertAllTs ⟨[], none⟩ l').inserted = l' := by
      rw [insertAllTs_inserted]; simp
    rw [hins'] at hmax'
    exact isMaxTs_unique hmax' hmax (fun x => (hperm.mem_iff).symm)

/-- Witness for `c6_last_ann_is_max`: inserting timestamps 5, 3, 9, 7
(out of order) leaves the book's last-annotation timestamp at 9, the
maximum, and it bounds every inserted timestamp. -/
theorem c6_last_ann_witness :
    (insertAllTs ⟨[], none⟩ [5, 3, 9, 7]).lastTs = some 9
    ∧ 9 ∈ [5, 3, 9, 7] ∧ ∀ x ∈ [5, 3, 9, 7], x ≤ 9 := by
  refine ⟨by decide, ?_⟩
  exact (c6_last_ann_is_max [5, 3, 9, 7]).2.1 9 (by decide)

/-- A raw ReadWiser highlight record as consumed by
`parse_exported_highlights` (lines 176-208 of `ReadWiserApp.py`): the
optional JSON keys become `Option` fields (`none` models an absent
key), and the `timestamp` string is represented by the epoch value the
code computes from it via `strptime`/`mktime`. -/
structure RawHighlight where
  hid : Option String
  highlightColor : Option String
  highlightText : Option String
  noteText : Option String
  location : Option String
  locationSort : Option String
  timestamp : Nat
deriving DecidableEq, Repr

/-- `AnnotationStruct` of `common_utils.py`: one field per possible
annotation value, each initialised to `None` by the constructor. -/
structure AnnotationStruct where
  annotation_id : Option String
  book_id : Option Nat
  epubcfi : Option String
  genre : Option String
  highlight_color : Option String
  highlight_text : Option String
  last_modification : Option Nat
  location : Option String
  location_sort : Option String
  note_text : Option String
  reader : Option String
deriving DecidableEq, Repr

/-- The all-`None` record built by `AnnotationStruct()`. -/
def AnnotationStruct.empty : AnnotationStruct :=
  ⟨none, none, none, none, none, none, none, none, none, none, none⟩

/-- The per-highlight body of the ReadWiser loop (lines 178-208):
start from an empty `AnnotationStruct`, set the required items
(book id, timestamp, and the default color "Green"), then override
from each optional key that is present, in source order. -/
def annFromHighlight (bookId : Nat) (h : RawHighlight) : AnnotationStruct :=
  let a := AnnotationStruct.empty
  let a := { a with book_id := some bookId,
                    last_modification := some h.timestamp,
                    highlight_color := some "Green" }
  let a := match h.hid with
           | none => a
           | some i => { a with annotation_id := some i }
  let a := match h.highlightColor with
           | none => a
           | some col => { a with highlight_color := some col }
  let a := match h.highlightText with
           | none => a
           | some t => { a with highlight_text := some t }
  let a := match h.noteText with
           | none => a
           | some t => { a with note_text := some t }
  let a := match h.location with
           | none => a
           | some loc => { a with location := some loc }
  match h.locationSort with
  | none => a
  | some ls => { a with location_sort := some ls }

/-- C8: the annotation built from a ReadWiser highlight carries
highlight color "Green" when the raw record has no `highlightColor`
key, and the raw record's value when the key is present. -/
theorem c8_highlight_color_default (bookId : Nat) (h : RawHighlight) :
    (h.highlightColor = none →
      (annFromHighlight bookId h).highlight_color = some "Green")
    ∧ (∀ col, h.highlightColor = some col →
      (annFromHighlight bookId h).highlight_color = some col) := by
  obtain ⟨hid, hc, ht, nt, loc, ls, ts⟩ := h
  constructor
  · intro hnone
    simp only at hnone
    subst hnone
    cases hid <;> cases ht <;> cases nt <;> cases loc <;> cases ls <;> rfl
  · intro col hcol
    simp only at hcol
    subst hcol
    cases hid <;> cases ht <;> cases nt <;> cases loc <;> cases ls <;> rfl

/-- Witness for `c8_highlight_color_default`: no key gives "Green",
an explicit "Blue" key gives "Blue". -/
theorem c8_highlight_color_witness :
    (annFromHighlight 7 ⟨none, none, some "text", none, none, none, 1000⟩).highlight_color
      = some "Green"
    ∧ (annFromHighlight 7 ⟨none, some "Blue", some "text", none, none, none, 1000⟩).highlight_color
      = some "Blue" :=
  ⟨(c8_highlight_color_default 7 ⟨none, none, some "text", none, none, none, 1000⟩).1 rfl,
   (c8_highlight_color_default 7 ⟨none, some "Blue", some "text", none, none, none, 1000⟩).2
     "Blue" rfl⟩

/-- A Python value stored in a `Struct` field. -/
inductive PyVal where
  | vNone
  | vInt (n : Int)
  | vStr (s : String)
  | vBool (b : Bool)
deriving DecidableEq, Repr

/-- A Python dict, as an association list (newest binding first). -/
abbrev PyDict := List (String × PyVal)

/-- Dict lookup. -/
def dictGet : PyDict → String → Option PyVal
  | [], _ => none
  | (k, v) :: rest, key => if key = k then some v else dictGet rest key

/-- Dict update (`d[k] = v`). -/
def dictSet (d : PyDict) (key : String) (v : PyVal) : PyDict := (key, v) :: d

/-- The mutable store: heap cell `i` holds one dict. -/
abbrev Heap := List PyDict

/-- Read heap cell `r` (an absent cell reads as the empty dict). -/
def heapCell : Heap → Nat → PyDict
  | [], _ => []
  | c :: _, 0 => c
  | _ :: rest, n + 1 => heapCell rest n

/-- Update key `k` of the dict in heap cell `r`. -/
def heapWrite : Heap → Nat → String → PyVal → Heap
  | [], _, _, _ => []
  | c :: rest, 0, k, v => dictSet c k v :: rest
  | c :: rest, n + 1, k, v => c :: heapWrite rest n k v

/-- A `Struct` object of `common_utils.py`: being a `dict` subclass it
owns a dict payload (`dictRef`, the cell that `s[k]` reads), and like
any object it has an attribute namespace `__dict__` (`attrRef`, the
cell that `s.k` reads). -/
structure StructObj where
  dictRef : Nat
  attrRef : Nat
deriving DecidableEq, Repr

/-- `Struct.__init__`: `dict.__init__(self, kwds)` fills a fresh cell
with the keyword arguments, and `self.__dict__ = self` makes the
attribute namespace alias that very cell, so both references point to
the same dict. -/
def mkStruct (kwds : PyDict) (h : Heap) : StructObj × Heap :=
  (⟨h.length, h.length⟩, h ++ [kwds])

/-- `s.k` — read through `__dict__`. -/
def getAttr (h : Heap) (s : StructObj) (k : String) : Option PyVal :=
  dictGet (heapCell h s.attrRef) k

/-- `s[k]` — read through the dict payload. -/
def getItem (h : Heap) (s : StructObj) (k : String) : Option PyVal :=
  dictGet (heapCell h s.dictRef) k

/-- `s.k = v` — write through `__dict__`. -/
def setAttr (h : Heap) (s : StructObj) (k : String) (v : PyVal) : Heap :=
  heapWrite h s.attrRef k v

/-- `s[k] = v` — write through the dict payload. -/
def setItem (h : Heap) (s : StructObj) (k : String) (v : PyVal) : Heap :=
  heapWrite h s.dictRef k v

/-- An assignment to a `Struct`, through either face. -/
inductive StructOp where
  | attrSet (k : String) (v : PyVal)
  | itemSet (k : String) (v : PyVal)
deriving DecidableEq, Repr

/-- Run a sequence of assignments against a struct. -/
def applyOps (s : StructObj) (h : Heap) : List StructOp → Heap
  | [] => h
  | StructOp.attrSet k v :: rest => applyOps s (setAttr h s k v) rest
  | StructOp.itemSet k v :: rest => applyOps s (setItem h s k v) rest

/-- Writing a cell does not change the heap size. -/
theorem heapWrite_length :
    ∀ (h : Heap) (n : Nat) (k : String) (v : PyVal),
      (heapWrite h n k v).length = h.length := by
  intro h
  induction h with
  | nil => intro n k v; rfl
  | cons c rest ih =>
    intro n k v
    cases n with
    | zero => rfl
    | succ m => simp [heapWrite, ih]

/-- Assignments do not change the heap size. -/
theorem applyOps_length (ops : List StructOp) :
    ∀ (s : StructObj) (h : Heap), (applyOps s h ops).length = h.length := by
  induction ops with
  | nil => intro s h; rfl
  | cons op rest ih =>
    intro s h
    cases op with
    | attrSet k v => rw [applyOps, ih, setAttr, heapWrite_length]
    | itemSet k v => rw [applyOps, ih, setItem, heapWrite_length]

/-- Assignments compose. -/
theorem applyOps_append (l1 l2 : List StructOp) :
    ∀ (s : StructObj) (h : Heap),
      applyOps s h (l1 ++ l2) = applyOps s (applyOps s h l1) l2 := by
  induction l1 with
  | nil => intro s h; rfl
  | cons op rest ih =>
    intro s h
    cases op with
    | attrSet k v => rw [List.cons_append, applyOps, applyOps, ih]
    | itemSet k v => rw [List.cons_append, applyOps, applyOps, ih]

/-- A freshly appended cell reads back. -/
theorem heapCell_append_self :
    ∀ (h : Heap) (d : PyDict), heapCell (h ++ [d]) h.length = d := by
  intro h
  induction h with
  | nil => intro d; rfl
  | cons c rest ih => intro d; simpa [heapCell] using ih d

/-- Reading a just-written cell sees the updated dict. -/
theorem heapCell_heapWrite_self :
    ∀ (h : Heap) (n : Nat) (k : String) (v : PyVal), n < h.length →
      heapCell (heapWrite h n k v) n = dictSet (heapCell h n) k v := by
  intro h
  induction h with
  | nil => intro n k v hn; exact absurd hn (by simp)
  | cons c rest ih =>
    intro n k v hn
    cases n with
    | zero => rfl
    | succ m =>
      simp only [heapWrite, heapCell]
      exact ih m k v (by simpa using hn)

/-- A just-set key reads back. -/
theorem dictGet_dictSet_self (d : PyDict) (k : String) (v : PyVal) :
    dictGet (dictSet d k v) k = some v := by
  simp [dictGet, dictSet]

/-- C9: for a `Struct` (hence for `AnnotationStruct` and `BookStruct`),
attribute access and dict indexing are interchangeable.  Right after
construction the keyword arguments are readable through attributes;
after any sequence of assignments through either face, `s.k` and
`s[k]` denote the same value; and a value assigned through one face
reads back through the loop via the other (as the ReadWiser adapter
does when it sets `book_struct.book_id` and reads
`book_struct['book_id']`). -/
theorem c9_struct_attr_item_agree (kwds : PyDict) (h0 : Heap)
    (ops : List StructOp) (k : String) (v : PyVal) :
    getAttr (mkStruct kwds h0).2 (mkStruct kwds h0).1 k = dictGet kwds k
    ∧ getAttr (applyOps (mkStruct kwds h0).1 (mkStruct kwds h0).2 ops)
        (mkStruct kwds h0).1 k
      = getItem (applyOps (mkStruct kwds h0).1 (mkStruct kwds h0).2 ops)
        (mkStruct kwds h0).1 k
    ∧ getItem (applyOps (mkStruct kwds h0).1 (mkStruct kwds h0).2
          (ops ++ [StructOp.attrSet k v])) (mkStruct kwds h0).1 k = some v
    ∧ getAttr (applyOps (mkStruct kwds h0).1 (mkStruct kwds h0).2
          (ops ++ [StructOp.itemSet k v])) (mkStruct kwds h0).1 k = some v := by
  have hlen : h0.length <
      (applyOps ⟨h0.length, h0.length⟩ (h0 ++ [kwds]) ops).length := by
    rw [applyOps_length]
    simp
  refine ⟨?_, rfl, ?_, ?_⟩
  · unfold getAttr mkStruct
    rw [heapCell_append_self]
  · rw [applyOps_append]
    unfold applyOps applyOps setAttr getItem
    dsimp only [mkStruct]
    rw [heapCell_heapWrite_self _ _ _ _ hlen, dictGet_dictSet_self]
  · rw [applyOps_append]
    unfold applyOps applyOps setItem getAttr
    dsimp only [mkStruct]
    rw [heapCell_heapWrite_self _ _ _ _ hlen, dictGet_dictSet_self]

/-- A calibre library book as returned by `db.get_metadata`, with the
two fields the zero-books message reads. -/
structure LibBook where
  authors : List String
  title : String
deriving DecidableEq, Repr

/-- A Python runtime error raised on the modelled path:
`selected_book.authors` on `None`, or `authors[0]` on an empty list. -/
inductive PyError where
  | attributeErrorNone
  | indexError
deriving DecidableEq, Repr

/-- One book entry of the ReadWiser API response. -/
structure RawBook where
  bid : Nat
  author : String
  title : String
  highlights : List RawHighlight
deriving DecidableEq, Repr

/-- A ReadWiser API response (`data`), with its `books` list. -/
structure ApiData where
  books : List RawBook
deriving DecidableEq, Repr

/-- Lines 138-145 of `ReadWiserApp.py`: with zero or more than one row
selected in the library view, `selected_book` is `None`; with exactly
one row it is the metadata of that book. -/
def selectedBookFor (rows : Nat) (book : LibBook) : Option LibBook :=
  if rows = 0 ∨ rows > 1 then none else some book

/-- Lines 154-157: the `'No annotations found'` message is built from
`selected_book.authors[0]` and `selected_book.title`; on `None` the
attribute access raises, and on an empty author list the index raises.
(The source writes `didn''t`, which in Python is the concatenation
"didnt".) -/
def zeroBooksMessage : Option LibBook → Except PyError String
  | none => Except.error PyError.attributeErrorNone
  | some b =>
    match b.authors with
    | [] => Except.error PyError.indexError
    | a :: _ =>
      Except.ok ("The server didnt find any annotations for [" ++ a ++ " - "
        ++ b.title ++ "]")

/-- Lines 137-157 of `parse_exported_highlights`: select the book,
choose the API call (`call_api_for_all` when no book is selected or
`raw` is "all", otherwise `call_api_for_one_book` with the selected
book's first author and title), and, when the response holds no books,
show the zero-books message.  `apiAll` and `apiOne` are the two
possible API responses; the book loop that follows this prefix is out
of scope here, so a non-empty response completes the modelled prefix
with no error. -/
def parseZeroBooksPath (rows : Nat) (book : LibBook) (raw : String)
    (apiAll apiOne : ApiData) : Except PyError Unit :=
  match (match selectedBookFor rows book with
         | none => Except.ok apiAll
         | some b =>
           if raw = "all" then Except.ok apiAll
           else
             match b.authors with
             | [] => Except.error PyError.indexError
             | _ :: _ => Except.ok apiOne) with
  | Except.error e => Except.error e
  | Except.ok data =>
    if data.books.length = 0 then
      match zeroBooksMessage (selectedBookFor rows book) with
      | Except.error e => Except.error e
      | Except.ok _ => Except.ok ()
    else Except.ok ()

/-- C10: when the API response has no books, the zero-books message is
built from the selected book, so the path completes without error only
when exactly one book was selected; the branch is also reachable with
no book selected (then `call_api_for_all` serves the request), in
which case the attribute access on `None` fails. -/
theorem c10_zero_books_needs_selection :
    (∀ (rows : Nat) (book : LibBook) (raw : String) (apiAll apiOne : ApiData),
      apiAll.books = [] → apiOne.books = [] →
      parseZeroBooksPath rows book raw apiAll apiOne = Except.ok () → rows = 1)
    ∧ (∀ (rows : Nat) (book : LibBook) (raw : String) (apiAll apiOne : ApiData),
      ¬ rows = 1 → apiAll.books = [] →
      parseZeroBooksPath rows book raw apiAll apiOne =
        Except.error PyError.attributeErrorNone) := by
  have hB : ∀ (rows : Nat) (book : LibBook) (raw : String)
      (apiAll apiOne : ApiData),
      ¬ rows = 1 → apiAll.books = [] →
      parseZeroBooksPath rows book raw apiAll apiOne =
        Except.error PyError.attributeErrorNone := by
    intro rows book raw apiAll apiOne hrow hempty
    have hsel : selectedBookFor rows book = none := by
      unfold selectedBookFor
      rw [if_pos]
      omega
    unfold parseZeroBooksPath
    rw [hsel]
    dsimp only
    rw [hempty]
    rfl
  refine ⟨?_, hB⟩
  intro rows book raw apiAll apiOne hAll hOne hok
  by_contra hr1
  rw [hB rows book raw apiAll apiOne hr1 hAll] at hok
  exact absurd hok (by simp)

/-- Witness for `c10_zero_books_needs_selection`: no row selected and
an empty response makes the zero-books path raise the attribute error
on `None`. -/
theorem c10_zero_books_witness :
    parseZeroBooksPath 0 ⟨["Austen"], "Emma"⟩ "all" ⟨[]⟩ ⟨[]⟩ =
      Except.error PyError.attributeErrorNone :=
  c10_zero_books_needs_selection.2 0 ⟨["Austen"], "Emma"⟩ "all" ⟨[]⟩ ⟨[]⟩
    (by decide) rfl

end CalibreAnnot
